import Mathlib

/-!
# Object cache of `fs/object-cache.go`

A shallow embedding of the object cache and of its two reclamation
policies, `AgeBasedGcFunc` and `SizeBasedGcFunc`.

* A Go `map[string]Object` is a list of (key, object) entries with pairwise
  distinct keys (`GoMap`).  Go leaves the iteration order of a map
  unspecified; the order of the list is the order in which a `range` loop
  visits the entries, and every theorem below holds for every order.
* Go code that mutates the map is a function returning the new map.
* A call that may panic returns an `Except Panic _` next to the map it left
  behind.
* `uint8`, `uint16` and `int` values are `Nat`, durations (`int64`
  nanoseconds) are `Int`.  The policies only compare them and count removed
  entries, which is bounded by the size of the map; the one product, in
  `InfoAge.Set`, is cut to 64 bits by `wrap64`.
* An `Object` is an interface value that points to an object.  An entry
  holds the address of the object next to the state the object is in, so
  one object can be stored under several keys; a method that mutates the
  object under one key changes what every key holding that object shows.
* `strconv.ParseInt` and the `%d` verb of `fmt.Sprintf` belong to the Go
  library; `ParseInt` and `Sprintf_d` model them for base 10 and 64 bits.
-/

namespace Fs

/-- Modelled from the spec: the tracked-object collaborator type `Object`,
whose declaration is not in `object-cache.go`.  The cache consumes three
capabilities of it: `Flags()`, `SetFlags(value)` and `Age()`.  `flags` is the
`uint8` status, `age` the `time.Duration` that `Age()` reports during the
operation being modelled, `addr` the address the interface value points to:
two entries of a map hold the same object exactly when their `addr` is the
same. -/
structure Object where
  flags : Nat
  age : Int
  addr : Nat
  deriving DecidableEq, Repr

/-- The status of the object: `Flags() uint8`. -/
def Object.Flags (obj : Object) : Nat := obj.flags

/-- The object after `SetFlags(value)`: the status is replaced by `value`. -/
def Object.SetFlags (obj : Object) (value : Nat) : Object := { obj with flags := value }

/-- The age of the object: `Age() time.Duration`. -/
def Object.Age (obj : Object) : Int := obj.age

/-- A Go `map[string]Object`: entries with pairwise distinct keys. -/
structure GoMap where
  entries : List (String × Object)
  nodup : (entries.map Prod.fst).Nodup

namespace GoMap

/-- The map `make(map[string]Object)`. -/
def empty : GoMap := ⟨[], List.nodup_nil⟩

/-- The value of `len(m)`. -/
def len (m : GoMap) : Nat := m.entries.length

/-- The value of `m[id]` in the two-result form `obj, found := m[id]`:
`none` when `found` is false. -/
def get? (m : GoMap) (id : String) : Option Object :=
  (m.entries.find? (fun e => e.1 == id)).map Prod.snd

/-- The keys of the map. -/
def keys (m : GoMap) : List String := m.entries.map Prod.fst

/-- The map after `delete(m, id)`. -/
def delete (m : GoMap) (id : String) : GoMap :=
  ⟨m.entries.filter (fun e => e.1 != id),
    m.nodup.sublist (List.filter_sublist _ |>.map Prod.fst)⟩

/-- The map whose keys are those of `m` and whose objects are those of `m`
changed by `g`. -/
def mapValues (m : GoMap) (g : Object → Object) : GoMap :=
  ⟨m.entries.map (fun e => (e.1, g e.2)), by
    have h : (Prod.fst ∘ fun e : String × Object => (e.1, g e.2)) = Prod.fst := rfl
    rw [List.map_map, h]
    exact m.nodup⟩

/-- The map after the object held under `id` was mutated in place by `f`
(a method with a pointer receiver called on `m[id]`): every entry that holds
that object, under `id` or under another key, shows the change; nothing
happens when `id` is not a key. -/
def modify (m : GoMap) (id : String) (f : Object → Object) : GoMap :=
  match m.get? id with
  | none => m
  | some obj => m.mapValues (fun o => if o.addr == obj.addr then f o else o)

end GoMap

/-- A value held by an `interface{}`: the dynamic types that matter to the
type assertions of the policies, and some that fail them. -/
inductive Value where
  | InfoAge (d : Int)
  | uint16 (n : Nat)
  | Duration (d : Int)
  | int (n : Int)
  | string (s : String)
  | nil
  deriving DecidableEq, Repr

/-- The value a failed `panics.OnFalse(cond, info...)` panics with: the
leading strings of `info`. -/
structure Panic where
  info : List String
  deriving DecidableEq, Repr

/-- The test `IsDeleted0(flag uint8) bool`: `flag == uint8(1)`. -/
def IsDeleted0 (flag : Nat) : Bool := flag == 1

/-- One iteration of the `range` loop of `AgeBasedGcFunc` at the entry
`(id, obj)`, on the map and the counter `n`. -/
def ageStep (limit : Int) (st : GoMap × Nat) (e : String × Object) : GoMap × Nat :=
  if !IsDeleted0 e.2.Flags then st
  else if e.2.Age > limit then (st.1.delete e.1, st.2 + 1)
  else st

/-- The policy `AgeBasedGcFunc(cache, args...)`: the map it leaves and the
integer it returns, or the panic of a failed argument check.  The loop ranges
over the entries of `cache`; it deletes only the entry it is visiting, so
every entry of the map is visited once. -/
def AgeBasedGcFunc (cache : GoMap) (args : List Value) : GoMap × Except Panic Nat :=
  if args.length != 1 then (cache, .error ⟨["BUG", "AgeBasedGcFunc", "args:"]⟩)
  else
    match args.head? with
    | some (Value.InfoAge limit) =>
      let r := cache.entries.foldl (ageStep limit) (cache, 0)
      (r.1, .ok r.2)
    | _ => (cache, .error ⟨["BUG", "AgeBasedGcFunc", "limit:"]⟩)

/-- One iteration of the `range` loop of `SizeBasedGcFunc`. -/
def sizeStep (st : GoMap × Nat) (e : String × Object) : GoMap × Nat :=
  if !IsDeleted0 e.2.Flags then st
  else (st.1.delete e.1, st.2 + 1)

/-- The policy `SizeBasedGcFunc(cache, args...)`. -/
def SizeBasedGcFunc (cache : GoMap) (args : List Value) : GoMap × Except Panic Nat :=
  if args.length != 1 then (cache, .error ⟨["BUG", "SizeBasedGcFunc", "args:"]⟩)
  else
    match args.head? with
    | some (Value.uint16 limit) =>
      if cache.len ≤ limit then (cache, .ok 0)
      else
        let r := cache.entries.foldl sizeStep (cache, 0)
        (r.1, .ok r.2)
    | _ => (cache, .error ⟨["BUG", "SizeBasedGcFunc", "limit:"]⟩)

/-- The type `GcFunc`: `func(cache map[string]Object, args ...interface{}) int`. -/
abbrev GcFunc := GoMap → List Value → GoMap × Except Panic Nat

/-- The anonymous struct `options` of `ObjectCache`. -/
structure Options where
  maxSize : Nat
  maxAge : Int
  deriving DecidableEq, Repr

/-- The struct `ObjectCache`; `gc` is `none` for the nil function value. -/
structure ObjectCache where
  options : Options
  Cache : GoMap
  gc : Option GcFunc
  gcArgs : List Value

/-- The constructor `newObjectCache()`: a zero value with an empty map. -/
def newObjectCache : ObjectCache :=
  { options := ⟨0, 0⟩, Cache := GoMap.empty, gc := none, gcArgs := [] }

/-- The constructor `NewFixedSizeObjectCache(maxSize)`. -/
def NewFixedSizeObjectCache (maxSize : Nat) : ObjectCache :=
  let oc := newObjectCache
  let oc := { oc with options := { oc.options with maxSize := maxSize } }
  let oc := { oc with gc := some SizeBasedGcFunc }
  { oc with gcArgs := [Value.uint16 oc.options.maxSize] }

/-- The constructor `NewTimeWindowObjectCache(maxAge)`. -/
def NewTimeWindowObjectCache (maxAge : Int) : ObjectCache :=
  let oc := newObjectCache
  let oc := { oc with options := { oc.options with maxAge := maxAge } }
  let oc := { oc with gc := some AgeBasedGcFunc }
  { oc with gcArgs := [Value.InfoAge oc.options.maxAge] }

/-- The method `MarkDeleted(id)`: the cache afterwards and the returned
boolean. -/
def ObjectCache.MarkDeleted (oc : ObjectCache) (id : String) : ObjectCache × Bool :=
  match oc.Cache.get? id with
  | none => (oc, false)
  | some _ => ({ oc with Cache := oc.Cache.modify id (fun obj => obj.SetFlags 1) }, true)

/-- The errors of the package. -/
inductive Error where
  | objectNotFound (id : String)
  deriving DecidableEq, Repr

/-- Modelled from the spec: the error constructor `ERR.OBJECT_NOT_FOUND`,
declared outside `object-cache.go`: "an ObjectNotFound error carrying the
identifier". -/
def ERR.OBJECT_NOT_FOUND (id : String) : Error := Error.objectNotFound id

/-- The method `IsDeleted(id)`: the returned pair, `none` for a nil error.
The method reads the cache and changes nothing. -/
def ObjectCache.IsDeleted (oc : ObjectCache) (id : String) : Bool × Option Error :=
  match oc.Cache.get? id with
  | none => (false, some (ERR.OBJECT_NOT_FOUND id))
  | some obj => (IsDeleted0 obj.Flags, none)

/-- The two numbers of the record
`"DEBUG: GC: %d items removed - object-cnt: %d"` that `Gc` logs. -/
structure GcLog where
  removed : Nat
  objectCnt : Nat
  deriving DecidableEq, Repr

/-- The method `Gc()`: the cache afterwards and the records logged, or the
panic of the policy (or of calling a nil `gc`). -/
def ObjectCache.Gc (oc : ObjectCache) : ObjectCache × Except Panic (List GcLog) :=
  match oc.gc with
  | none => (oc, .error ⟨["nil func"]⟩)
  | some gc =>
    match gc oc.Cache oc.gcArgs with
    | (cache, .error p) => ({ oc with Cache := cache }, .error p)
    | (cache, .ok n) =>
      let oc := { oc with Cache := cache }
      if n > 0 then (oc, .ok [⟨n, oc.Cache.len⟩]) else (oc, .ok [])

/-- The loop shared by the two policies: delete the visited entry and count
it when `p` holds of its object. -/
def sweepStep (p : Object → Bool) (st : GoMap × Nat) (e : String × Object) : GoMap × Nat :=
  if p e.2 then (st.1.delete e.1, st.2 + 1) else st

/-- The test of the age policy for removing an object. -/
def agedOut (limit : Int) (obj : Object) : Bool :=
  IsDeleted0 obj.Flags && decide (obj.Age > limit)

/-- The cache `oc` after its caller stored entries in the exported field
`Cache` until it holds the map `m`; the policy and its argument list are as
they were. -/
def ObjectCache.populate (oc : ObjectCache) (m : GoMap) : ObjectCache :=
  { oc with Cache := m }

/-- The map after the assignment `m[id] = obj`: the entry of `id`, if any, is
replaced. -/
def GoMap.store (m : GoMap) (id : String) (obj : Object) : GoMap :=
  ⟨(id, obj) :: m.entries.filter (fun e => e.1 != id), by
    rw [List.map_cons, List.nodup_cons]
    refine ⟨?_, m.nodup.sublist (List.filter_sublist _ |>.map Prod.fst)⟩
    intro hmem
    obtain ⟨e, he, hid⟩ := List.mem_map.mp hmem
    have hne := (List.mem_filter.mp he).2
    simp only [bne_iff_ne, ne_eq] at hne
    exact hne hid⟩

/-- A call made by the owner of a cache: an insertion `oc.Cache[id] = obj`
through the exported map, or one of the three methods. -/
inductive Call where
  | Insert (id : String) (obj : Object)
  | MarkDeleted (id : String)
  | IsDeleted (id : String)
  | Gc
  deriving DecidableEq, Repr

/-- The cache after one call, and the panic the call ended in, if any.  The
results of the methods are dropped; `IsDeleted` assigns nothing, so the cache
after it is the cache before it. -/
def ObjectCache.call (oc : ObjectCache) : Call → ObjectCache × Option Panic
  | Call.Insert id obj => ({ oc with Cache := oc.Cache.store id obj }, none)
  | Call.MarkDeleted id => ((oc.MarkDeleted id).1, none)
  | Call.IsDeleted _ => (oc, none)
  | Call.Gc =>
    match oc.Gc with
    | (oc', .error p) => (oc', some p)
    | (oc', .ok _) => (oc', none)

/-- The cache after a sequence of calls; a panic ends the sequence. -/
def ObjectCache.run (oc : ObjectCache) : List Call → ObjectCache × Option Panic
  | [] => (oc, none)
  | c :: cs =>
    match oc.call c with
    | (oc', some p) => (oc', some p)
    | (oc', none) => oc'.run cs

/-! ## The type `InfoAge` -/

/-- The error kinds of `strconv`: `ErrSyntax` and `ErrRange`. -/
inductive NumError where
  | Syntax
  | Range
  deriving DecidableEq, Repr

/-- An integer cut to a signed 64-bit value, as `int64` arithmetic and the
conversion `int64(x)` do. -/
def wrap64 (x : Int) : Int := (x + 2 ^ 63) % 2 ^ 64 - 2 ^ 63

/-- The largest `uint64`, `1<<64 - 1`. -/
def maxUint64 : Nat := 2 ^ 64 - 1

/-- The loop of `strconv.ParseUint(s, 10, 64)` on the bytes left to read and
the `uint64` value `n` read so far: the value and the error it returns.  A
byte that is not a decimal digit ends it with `ErrSyntax`; a digit at which
`n * 10` or `n * 10 + d` would pass `maxUint64` ends it with `ErrRange`,
before the bytes after it are read. -/
def parseUintLoop : List Char → Nat → Nat × Option NumError
  | [], n => (n, none)
  | c :: cs, n =>
    if !c.isDigit then (0, some NumError.Syntax)
    else if n ≥ maxUint64 / 10 + 1 then (maxUint64, some NumError.Range)
    else
      let n10 := n * 10 % 2 ^ 64
      let n1 := (n10 + (c.toNat - 48)) % 2 ^ 64
      if n1 < n10 || n1 > maxUint64 then (maxUint64, some NumError.Range)
      else parseUintLoop cs n1

/-- The call `strconv.ParseUint(s, 10, 64)` of the Go library: the value and
the error it returns, `none` for nil. -/
def ParseUint (s : List Char) : Nat × Option NumError :=
  if s.isEmpty then (0, some NumError.Syntax) else parseUintLoop s 0

/-- The call `strconv.ParseInt(s, 10, 64)` of the Go library: the sign is
picked off, the rest goes through `ParseUint`, whose syntax error is returned
as it is, and the value is checked against `1 << 63`.  Of an error only the
kind is kept, and the value returned with an error is dropped: `Set` does not
read it. -/
def ParseInt (s : String) : Except NumError Int :=
  match s.toList with
  | [] => .error NumError.Syntax
  | c :: cs =>
    let neg := c == '-'
    let r := ParseUint (if c == '+' || c == '-' then cs else c :: cs)
    match r.2 with
    | some NumError.Syntax => .error NumError.Syntax
    | _ =>
      if !neg && r.1 ≥ 2 ^ 63 then .error NumError.Range
      else if neg && r.1 > 2 ^ 63 then .error NumError.Range
      else .ok (if neg then wrap64 (-(wrap64 r.1)) else wrap64 r.1)

/-- The decimal digits of `u`, most significant first, as the `%d` verb of
`fmt` writes them; `fuel` bounds the number of digits. -/
def decimal : Nat → Nat → List Char
  | 0, u => [Nat.digitChar (u % 10)]
  | fuel + 1, u =>
    if u < 10 then [Nat.digitChar u]
    else decimal fuel (u / 10) ++ [Nat.digitChar (u % 10)]

/-- The string `fmt.Sprintf("%d", t)` of the Go library. -/
def Sprintf_d (t : Int) : String :=
  if t < 0 then String.mk ('-' :: decimal t.natAbs t.natAbs)
  else String.mk (decimal t.natAbs t.natAbs)

/-- The constant `time.Millisecond`, in nanoseconds. -/
def Millisecond : Int := 1000000

/-- The method `(t *InfoAge) Set(vrep)`: the value of `*t` afterwards and the
returned error, `none` for nil. -/
def InfoAge.Set (t : Int) (vrep : String) : Int × Option NumError :=
  match ParseInt vrep with
  | .error e => (t, some e)
  | .ok v => (wrap64 (v * Millisecond), none)

/-- The method `(t *InfoAge) String()`: `fmt.Sprintf("%d", *t)`. -/
def InfoAge.String (t : Int) : String := Sprintf_d t

/-! ## Concrete caches -/

/-- Three soft-deleted or live entries around the threshold 1000: `x` is
soft-deleted with age 1000, `y` soft-deleted with age 1001, `z` live with age
5000. -/
def graceMap : GoMap :=
  ⟨[("x", ⟨1, 1000, 0⟩), ("y", ⟨1, 1001, 1⟩), ("z", ⟨0, 5000, 2⟩)], by decide⟩

/-- The entries `a`, `b`, `c` of which `a` and `b` are soft-deleted. -/
def abcMap : GoMap :=
  ⟨[("a", ⟨1, 0, 0⟩), ("b", ⟨1, 7, 1⟩), ("c", ⟨0, 9, 2⟩)], by decide⟩

/-- Three live entries. -/
def liveMap : GoMap :=
  ⟨[("a", ⟨0, 0, 0⟩), ("b", ⟨0, 7, 1⟩), ("c", ⟨2, 9, 2⟩)], by decide⟩

/-- A fixed-size cache of capacity 2 into which `a`, `b`, `c` were put, `a`
and `b` already soft-deleted. -/
def abcCache : ObjectCache := { NewFixedSizeObjectCache 2 with Cache := abcMap }

/-- A time-window cache holding one object whose status is 3: bit 0 and
bit 1 are both set. -/
def flags3Cache : ObjectCache :=
  { NewTimeWindowObjectCache 1000 with
    Cache := ⟨[("a", ⟨3, 0, 0⟩)], by decide⟩ }

/-- A time-window cache holding `a` with status 6 and `b` with status 2:
neither has bit 0 set. -/
def mixedCache : ObjectCache :=
  { NewTimeWindowObjectCache 1000 with
    Cache := ⟨[("a", ⟨6, 0, 0⟩), ("b", ⟨2, 5, 1⟩)], by decide⟩ }

/-- A time-window cache whose caller stored one object, of status 0 and at
address 7, under both `a` and `b`. -/
def sharedCache : ObjectCache :=
  { NewTimeWindowObjectCache 1000 with
    Cache := ⟨[("a", ⟨0, 5, 7⟩), ("b", ⟨0, 5, 7⟩)], by decide⟩ }

/-- The scenario of the size policy as calls on a cache of capacity 2: insert
`a`, `b`, `c`, mark `a` and `b` deleted, reclaim. -/
def abcCalls : List Call :=
  [Call.Insert "a" ⟨0, 0, 0⟩, Call.Insert "b" ⟨0, 7, 1⟩, Call.Insert "c" ⟨0, 9, 2⟩,
    Call.MarkDeleted "a", Call.MarkDeleted "b", Call.Gc]

/-! ## Lemmas on maps -/

theorem GoMap.ext_entries {m m' : GoMap} (h : m.entries = m'.entries) : m = m' := by
  cases m; cases m'; cases h; rfl

theorem find_key_iff (l : List (String × Object)) (hn : (l.map Prod.fst).Nodup)
    (id : String) (obj : Object) :
    (l.find? (fun e => e.1 == id)).map Prod.snd = some obj ↔ (id, obj) ∈ l := by
  induction l with
  | nil => simp
  | cons e l ih =>
    obtain ⟨k, v⟩ := e
    simp only [List.map_cons, List.nodup_cons] at hn
    by_cases hk : k = id
    · subst hk
      have hnot : (k, obj) ∉ l := fun hm => hn.1 (List.mem_map_of_mem Prod.fst hm)
      simp [List.find?_cons, hnot, eq_comm]
    · have hne : ¬ (id = k) := fun h => hk h.symm
      simp [List.find?_cons, hk, hne, ih hn.2]

theorem GoMap.get?_eq_some_iff (m : GoMap) (id : String) (obj : Object) :
    m.get? id = some obj ↔ (id, obj) ∈ m.entries :=
  find_key_iff m.entries m.nodup id obj

theorem GoMap.get?_eq_none_iff (m : GoMap) (id : String) :
    m.get? id = none ↔ id ∉ m.keys := by
  unfold GoMap.get? GoMap.keys
  simp only [Option.map_eq_none', List.find?_eq_none, List.mem_map, not_exists, not_and,
    Prod.forall, beq_iff_eq, Bool.not_eq_true, beq_eq_false_iff_ne, ne_eq]

theorem find_map_values (l : List (String × Object)) (id' : String)
    (g : Object → Object) :
    ((l.map (fun e => (e.1, g e.2))).find? (fun e => e.1 == id')).map Prod.snd
      = ((l.find? (fun e => e.1 == id')).map Prod.snd).map g := by
  induction l with
  | nil => rfl
  | cons e l ih =>
    by_cases hk : e.1 = id'
    · simp [List.find?_cons, hk]
    · simp only [List.map_cons, List.find?_cons, beq_eq_false_iff_ne.mpr hk]
      exact ih

theorem GoMap.get?_mapValues (m : GoMap) (id' : String) (g : Object → Object) :
    (m.mapValues g).get? id' = (m.get? id').map g :=
  find_map_values m.entries id' g

theorem GoMap.keys_mapValues (m : GoMap) (g : Object → Object) :
    (m.mapValues g).keys = m.keys := by
  unfold GoMap.keys GoMap.mapValues
  simp only [List.map_map]
  rfl

theorem GoMap.modify_of_found (m : GoMap) (id : String) (f : Object → Object)
    (obj : Object) (h : m.get? id = some obj) :
    m.modify id f = m.mapValues (fun o => if o.addr == obj.addr then f o else o) := by
  simp only [GoMap.modify, h]

theorem GoMap.get?_modify (m : GoMap) (id id' : String) (f : Object → Object)
    (obj : Object) (h : m.get? id = some obj) :
    (m.modify id f).get? id'
      = (m.get? id').map (fun o => if o.addr == obj.addr then f o else o) := by
  rw [GoMap.modify_of_found m id f obj h, GoMap.get?_mapValues]

theorem GoMap.keys_modify (m : GoMap) (id : String) (f : Object → Object) :
    (m.modify id f).keys = m.keys := by
  unfold GoMap.modify
  cases m.get? id with
  | none => rfl
  | some obj => exact GoMap.keys_mapValues m _

theorem GoMap.modify_modify (m : GoMap) (id : String) (f : Object → Object)
    (hf : ∀ obj, f (f obj) = f obj) (haddr : ∀ obj, (f obj).addr = obj.addr) :
    (m.modify id f).modify id f = m.modify id f := by
  cases hg : m.get? id with
  | none =>
    have h1 : m.modify id f = m := by simp only [GoMap.modify, hg]
    rw [h1, h1]
  | some obj =>
    have h1 := GoMap.modify_of_found m id f obj hg
    have hg2 : (m.modify id f).get? id = some (f obj) := by
      rw [GoMap.get?_modify m id id f obj hg, hg]
      simp
    rw [GoMap.modify_of_found (m.modify id f) id f (f obj) hg2, h1]
    apply GoMap.ext_entries
    simp only [GoMap.mapValues, List.map_map]
    apply List.map_congr_left
    intro e _
    by_cases ha : e.2.addr = obj.addr
    · simp [ha, haddr, hf]
    · simp [ha, haddr]

theorem GoMap.get?_isSome_of_mem_keys (m : GoMap) (id : String) (h : id ∈ m.keys) :
    ∃ obj, m.get? id = some obj := by
  cases hg : m.get? id with
  | none => exact absurd h ((GoMap.get?_eq_none_iff m id).mp hg)
  | some obj => exact ⟨obj, rfl⟩

/-! ## The sweep loop -/

theorem ageStep_eq_sweepStep (limit : Int) (st : GoMap × Nat) (e : String × Object) :
    ageStep limit st e = sweepStep (agedOut limit) st e := by
  unfold ageStep sweepStep agedOut
  by_cases h1 : IsDeleted0 e.2.Flags = true <;> by_cases h2 : e.2.Age > limit <;> simp [h1, h2]

theorem sizeStep_eq_sweepStep (st : GoMap × Nat) (e : String × Object) :
    sizeStep st e = sweepStep (fun obj => IsDeleted0 obj.Flags) st e := by
  unfold sizeStep sweepStep
  by_cases h1 : IsDeleted0 e.2.Flags = true <;> simp [h1]

theorem sweep_count (p : Object → Bool) (l : List (String × Object)) (st : GoMap × Nat) :
    (l.foldl (sweepStep p) st).2 = st.2 + l.countP (fun e => p e.2) := by
  induction l generalizing st with
  | nil => simp
  | cons e l ih =>
    rw [List.foldl_cons, ih]
    by_cases h : p e.2 = true
    · simp [sweepStep, h, List.countP_cons]
      omega
    · simp [sweepStep, h, List.countP_cons]

theorem sweep_entries (p : Object → Bool) (l : List (String × Object)) (st : GoMap × Nat) :
    (l.foldl (sweepStep p) st).1.entries
      = st.1.entries.filter (fun e => !(l.any (fun d => p d.2 && d.1 == e.1))) := by
  induction l generalizing st with
  | nil => simp
  | cons d l ih =>
    rw [List.foldl_cons, ih]
    by_cases h : p d.2 = true
    · simp only [sweepStep, h, if_true, GoMap.delete, List.filter_filter, List.any_cons,
        Bool.true_and]
      apply List.filter_congr
      intro x _
      by_cases hx : d.1 = x.1
      · simp [hx]
      · have h1 : (x.1 != d.1) = true := bne_iff_ne.mpr (fun h => hx h.symm)
        have h2 : (d.1 == x.1) = false := beq_eq_false_iff_ne.mpr hx
        rw [h1, h2]
        simp
    · simp [sweepStep, h]

theorem any_same_key (m : GoMap) (p : Object → Bool) (e : String × Object)
    (he : e ∈ m.entries) :
    m.entries.any (fun d => p d.2 && d.1 == e.1) = p e.2 := by
  by_cases h : p e.2 = true
  · rw [h, List.any_eq_true]
    exact ⟨e, he, by simp [h]⟩
  · have hf : p e.2 = false := by simpa using h
    rw [hf, List.any_eq_false]
    intro d hd hpd
    simp only [Bool.and_eq_true, beq_iff_eq] at hpd
    have hde : d = e := List.inj_on_of_nodup_map m.nodup hd he hpd.2
    rw [hde] at hpd
    exact h hpd.1

/-- The sweep loop over the entries of a map leaves the entries whose object
fails `p`, in their order, and counts the others. -/
theorem sweep_map (p : Object → Bool) (m : GoMap) (n : Nat) :
    (m.entries.foldl (sweepStep p) (m, n)).1.entries = m.entries.filter (fun e => !p e.2)
      ∧ (m.entries.foldl (sweepStep p) (m, n)).2 = n + m.entries.countP (fun e => p e.2) := by
  refine ⟨?_, sweep_count p m.entries (m, n)⟩
  rw [sweep_entries]
  apply List.filter_congr
  intro e he
  rw [any_same_key m p e he]

theorem get?_of_filter (m m' : GoMap) (q : Object → Bool)
    (h : m'.entries = m.entries.filter (fun e => q e.2)) (id : String) :
    m'.get? id = (m.get? id).filter q := by
  apply Option.ext
  intro obj
  rw [Option.mem_def, Option.mem_def, Option.filter_eq_some, Option.mem_def,
    GoMap.get?_eq_some_iff, GoMap.get?_eq_some_iff, h, List.mem_filter]

theorem len_of_filter (m m' : GoMap) (p : Object → Bool)
    (h : m'.entries = m.entries.filter (fun e => !p e.2)) :
    m.entries.countP (fun e => p e.2) + m'.len = m.len := by
  unfold GoMap.len
  rw [h, ← List.countP_eq_length_filter, List.length_eq_countP_add_countP (fun e => p e.2)]
  congr 1
  apply List.countP_congr
  intro e _
  simp

theorem keys_of_filter (m m' : GoMap) (q : String × Object → Bool)
    (h : m'.entries = m.entries.filter q) : m'.keys ⊆ m.keys := by
  unfold GoMap.keys
  rw [h]
  exact List.map_subset _ (List.filter_sublist _).subset

/-- What the age policy does on a well-shaped argument list: it keeps, in
their order, the entries that are not aged out and returns the number of the
others. -/
theorem AgeBasedGcFunc_run (cache : GoMap) (limit : Int) :
    (AgeBasedGcFunc cache [Value.InfoAge limit]).1.entries
        = cache.entries.filter (fun e => !agedOut limit e.2)
      ∧ (AgeBasedGcFunc cache [Value.InfoAge limit]).2
        = .ok (cache.entries.countP (fun e => agedOut limit e.2)) := by
  have hstep : ageStep limit = sweepStep (agedOut limit) := by
    funext st e
    exact ageStep_eq_sweepStep limit st e
  have h := sweep_map (agedOut limit) cache 0
  simp only [AgeBasedGcFunc, List.length_singleton, bne_self_eq_false, Bool.false_eq_true,
    if_false, List.head?_cons, hstep]
  exact ⟨h.1, by rw [h.2, Nat.zero_add]⟩

/-- What the size policy does over capacity. -/
theorem SizeBasedGcFunc_run (cache : GoMap) (limit : Nat) (h : limit < cache.len) :
    (SizeBasedGcFunc cache [Value.uint16 limit]).1.entries
        = cache.entries.filter (fun e => !IsDeleted0 e.2.Flags)
      ∧ (SizeBasedGcFunc cache [Value.uint16 limit]).2
        = .ok (cache.entries.countP (fun e => IsDeleted0 e.2.Flags)) := by
  have hstep : sizeStep = sweepStep (fun obj => IsDeleted0 obj.Flags) := by
    funext st e
    exact sizeStep_eq_sweepStep st e
  have hs := sweep_map (fun obj => IsDeleted0 obj.Flags) cache 0
  have hn : ¬ cache.len ≤ limit := Nat.not_le.mpr h
  simp only [SizeBasedGcFunc, List.length_singleton, bne_self_eq_false, Bool.false_eq_true,
    if_false, List.head?_cons, hstep, hn]
  exact ⟨hs.1, by rw [hs.2, Nat.zero_add]⟩

/-- What the size policy does at or under capacity. -/
theorem SizeBasedGcFunc_idle (cache : GoMap) (limit : Nat) (h : cache.len ≤ limit) :
    SizeBasedGcFunc cache [Value.uint16 limit] = (cache, .ok 0) := by
  simp [SizeBasedGcFunc, h]

/-! ## The reclamation policies -/

/-- C1: on every map and every threshold `limit`, `AgeBasedGcFunc` returns
without panicking; an id is a key afterwards exactly when it was a key whose
object is not both soft-deleted (`IsDeleted0` of its flags) and of age
strictly greater than `limit`, and it then holds the same object; the
returned integer is the number of entries that were soft-deleted and older
than `limit`, which is the number of entries that left the map.  So a
soft-deleted entry of age at most `limit` is still present and a
soft-deleted entry of age greater than `limit` is absent. -/
theorem age_policy_removes_exactly (cache : GoMap) (limit : Int) :
    (AgeBasedGcFunc cache [Value.InfoAge limit]).2
        = .ok (cache.entries.countP
            (fun e => IsDeleted0 e.2.Flags && decide (e.2.Age > limit)))
      ∧ (∀ id, (AgeBasedGcFunc cache [Value.InfoAge limit]).1.get? id
          = (cache.get? id).filter
              (fun obj => !(IsDeleted0 obj.Flags && decide (obj.Age > limit))))
      ∧ cache.entries.countP (fun e => IsDeleted0 e.2.Flags && decide (e.2.Age > limit))
          + (AgeBasedGcFunc cache [Value.InfoAge limit]).1.len = cache.len
      ∧ (∀ id obj, cache.get? id = some obj → IsDeleted0 obj.Flags = true →
          obj.Age ≤ limit →
          (AgeBasedGcFunc cache [Value.InfoAge limit]).1.get? id = some obj)
      ∧ (∀ id obj, cache.get? id = some obj → IsDeleted0 obj.Flags = true →
          obj.Age > limit →
          (AgeBasedGcFunc cache [Value.InfoAge limit]).1.get? id = none) := by
  obtain ⟨hent, hret⟩ := AgeBasedGcFunc_run cache limit
  have hget := get?_of_filter cache (AgeBasedGcFunc cache [Value.InfoAge limit]).1
    (fun obj => !agedOut limit obj) hent
  refine ⟨hret, hget, len_of_filter cache _ (agedOut limit) hent, ?_, ?_⟩
  · intro id obj hin hdel hage
    rw [hget, hin]
    have : ¬ obj.Age > limit := not_lt.mpr hage
    simp [Option.filter, agedOut, hdel, this]
  · intro id obj hin hdel hage
    rw [hget, hin]
    simp [Option.filter, agedOut, hdel, hage]

/-- The grace period at the threshold 1000: the soft-deleted entry of age
exactly 1000 stays, the soft-deleted entry of age 1001 goes, the live entry of
age 5000 stays, and 1 is returned. -/
theorem age_policy_removes_exactly_witness :
    (AgeBasedGcFunc graceMap [Value.InfoAge 1000]).2 = .ok 1
      ∧ (AgeBasedGcFunc graceMap [Value.InfoAge 1000]).1.entries
          = [("x", ⟨1, 1000, 0⟩), ("z", ⟨0, 5000, 2⟩)]
      ∧ (AgeBasedGcFunc graceMap [Value.InfoAge 1000]).1.get? "x" = some ⟨1, 1000, 0⟩
      ∧ (AgeBasedGcFunc graceMap [Value.InfoAge 1000]).1.get? "y" = none :=
  ⟨rfl, by decide,
    (age_policy_removes_exactly graceMap 1000).2.2.2.1 "x" ⟨1, 1000, 0⟩
      (by decide) (by decide) (by decide),
    (age_policy_removes_exactly graceMap 1000).2.2.2.2 "y" ⟨1, 1001, 1⟩
      (by decide) (by decide) (by decide)⟩

/-- C2: on every map holding more than `limit` entries, `SizeBasedGcFunc`
returns without panicking; an id is a key afterwards exactly when it was a key
whose object is not soft-deleted, whatever its age, and it then holds the same
object; the returned integer is the number of soft-deleted entries that were
present. -/
theorem size_policy_over_capacity (cache : GoMap) (limit : Nat) (h : cache.len > limit) :
    (SizeBasedGcFunc cache [Value.uint16 limit]).2
        = .ok (cache.entries.countP (fun e => IsDeleted0 e.2.Flags))
      ∧ (∀ id, (SizeBasedGcFunc cache [Value.uint16 limit]).1.get? id
          = (cache.get? id).filter (fun obj => !IsDeleted0 obj.Flags))
      ∧ (SizeBasedGcFunc cache [Value.uint16 limit]).1.entries
          = cache.entries.filter (fun e => !IsDeleted0 e.2.Flags) := by
  obtain ⟨hent, hret⟩ := SizeBasedGcFunc_run cache limit h
  exact ⟨hret, get?_of_filter cache _ (fun obj => !IsDeleted0 obj.Flags) hent, hent⟩

/-- The scenario of capacity 2 with `a`, `b`, `c` of which `a` and `b` are
soft-deleted: `a` and `b` are removed, one entry is left, 2 is returned. -/
theorem size_policy_over_capacity_witness :
    abcMap.len > 2
      ∧ (SizeBasedGcFunc abcMap [Value.uint16 2]).2 = .ok 2
      ∧ (SizeBasedGcFunc abcMap [Value.uint16 2]).1.keys = ["c"]
      ∧ (SizeBasedGcFunc abcMap [Value.uint16 2]).1.len = 1
      ∧ ((SizeBasedGcFunc abcMap [Value.uint16 2]).2
          = .ok (abcMap.entries.countP (fun e => IsDeleted0 e.2.Flags))
        ∧ (∀ id, (SizeBasedGcFunc abcMap [Value.uint16 2]).1.get? id
            = (abcMap.get? id).filter (fun obj => !IsDeleted0 obj.Flags))
        ∧ (SizeBasedGcFunc abcMap [Value.uint16 2]).1.entries
            = abcMap.entries.filter (fun e => !IsDeleted0 e.2.Flags)) :=
  ⟨by decide, rfl, by decide, by decide,
    size_policy_over_capacity abcMap 2 (by decide)⟩

/-- C3: on every map holding at most `limit` entries (exactly `limit`
included), `SizeBasedGcFunc` returns 0 and leaves the map as it was. -/
theorem size_policy_noop_within_capacity (cache : GoMap) (limit : Nat)
    (h : cache.len ≤ limit) :
    SizeBasedGcFunc cache [Value.uint16 limit] = (cache, .ok 0) :=
  SizeBasedGcFunc_idle cache limit h

/-- Three entries, two of them soft-deleted, at capacity exactly 3: nothing is
removed. -/
theorem size_policy_noop_within_capacity_witness :
    abcMap.len ≤ 3 ∧ SizeBasedGcFunc abcMap [Value.uint16 3] = (abcMap, .ok 0) :=
  ⟨by decide, size_policy_noop_within_capacity abcMap 3 (by decide)⟩

/-- C4: on every map holding more than `C` entries none of which is
soft-deleted, `SizeBasedGcFunc` returns 0 and leaves the map as it was, so the
map still holds more than `C` entries afterwards. -/
theorem size_policy_keeps_live_over_capacity (cache : GoMap) (C : Nat)
    (hover : cache.len > C)
    (hlive : ∀ e ∈ cache.entries, IsDeleted0 e.2.Flags = false) :
    SizeBasedGcFunc cache [Value.uint16 C] = (cache, .ok 0)
      ∧ (SizeBasedGcFunc cache [Value.uint16 C]).1.len > C := by
  obtain ⟨hent, hret⟩ := SizeBasedGcFunc_run cache C hover
  have hsame : (SizeBasedGcFunc cache [Value.uint16 C]).1 = cache := by
    apply GoMap.ext_entries
    rw [hent, List.filter_eq_self]
    intro e he
    simp [hlive e he]
  have hzero : cache.entries.countP (fun e => IsDeleted0 e.2.Flags) = 0 := by
    rw [List.countP_eq_zero]
    intro e he
    simp [hlive e he]
  rw [hzero] at hret
  refine ⟨Prod.ext hsame hret, ?_⟩
  rw [hsame]
  exact hover

/-- Three live entries at capacity 1: nothing is removed and the map is
still over capacity. -/
theorem size_policy_keeps_live_over_capacity_witness :
    liveMap.len > 1
      ∧ SizeBasedGcFunc liveMap [Value.uint16 1] = (liveMap, .ok 0)
      ∧ (SizeBasedGcFunc liveMap [Value.uint16 1]).1.len > 1 :=
  ⟨by decide, size_policy_keeps_live_over_capacity liveMap 1 (by decide) (by decide)⟩

/-! ## Soft deletion -/

theorem MarkDeleted_found (oc : ObjectCache) (id : String) (obj : Object)
    (h : oc.Cache.get? id = some obj) :
    oc.MarkDeleted id
      = ({ oc with Cache := oc.Cache.modify id (fun o => o.SetFlags 1) }, true) := by
  simp [ObjectCache.MarkDeleted, h]

theorem MarkDeleted_missing (oc : ObjectCache) (id : String)
    (h : oc.Cache.get? id = none) : oc.MarkDeleted id = (oc, false) := by
  simp [ObjectCache.MarkDeleted, h]

theorem get?_after_MarkDeleted (oc : ObjectCache) (id : String) (obj : Object)
    (h : oc.Cache.get? id = some obj) :
    (oc.MarkDeleted id).1.Cache.get? id = some (obj.SetFlags 1) := by
  rw [MarkDeleted_found oc id obj h]
  simp only
  rw [GoMap.get?_modify oc.Cache id id _ obj h, h]
  simp

theorem IsDeleted_after_MarkDeleted (oc : ObjectCache) (id : String) (obj : Object)
    (h : oc.Cache.get? id = some obj) :
    (oc.MarkDeleted id).1.IsDeleted id = (true, none) := by
  unfold ObjectCache.IsDeleted
  rw [get?_after_MarkDeleted oc id obj h]
  rfl

/-- C5: for every cache and every id that is a key of its map, whatever the
flags of the object were, `MarkDeleted(id)` returns true and `IsDeleted(id)` on
the cache it leaves returns `(true, nil)`. -/
theorem mark_then_is_deleted (oc : ObjectCache) (id : String) (h : id ∈ oc.Cache.keys) :
    (oc.MarkDeleted id).2 = true
      ∧ (oc.MarkDeleted id).1.IsDeleted id = (true, none) := by
  obtain ⟨obj, hobj⟩ := GoMap.get?_isSome_of_mem_keys oc.Cache id h
  exact ⟨by rw [MarkDeleted_found oc id obj hobj], IsDeleted_after_MarkDeleted oc id obj hobj⟩

/-- The object under `a` with status 3 is reported deleted once marked. -/
theorem mark_then_is_deleted_witness :
    "a" ∈ flags3Cache.Cache.keys
      ∧ (flags3Cache.MarkDeleted "a").2 = true
      ∧ (flags3Cache.MarkDeleted "a").1.IsDeleted "a" = (true, none) :=
  ⟨by decide, mark_then_is_deleted flags3Cache "a" (by decide)⟩

/-- C6: for every cache and every id, `MarkDeleted(id)` returns false exactly
when `id` is not a key of the map, and then leaves the cache as it was;
`IsDeleted(id)` returns an error exactly when `id` is not a key, and then
returns false with `ERR.OBJECT_NOT_FOUND(id)`. -/
theorem not_found_asymmetry (oc : ObjectCache) (id : String) :
    ((oc.MarkDeleted id).2 = false ↔ id ∉ oc.Cache.keys)
      ∧ (id ∉ oc.Cache.keys → (oc.MarkDeleted id).1 = oc)
      ∧ ((oc.IsDeleted id).2 ≠ none ↔ id ∉ oc.Cache.keys)
      ∧ (id ∉ oc.Cache.keys → oc.IsDeleted id = (false, some (ERR.OBJECT_NOT_FOUND id))) := by
  cases hg : oc.Cache.get? id with
  | none =>
    have hk : id ∉ oc.Cache.keys := (GoMap.get?_eq_none_iff oc.Cache id).mp hg
    have hi : oc.IsDeleted id = (false, some (ERR.OBJECT_NOT_FOUND id)) := by
      simp [ObjectCache.IsDeleted, hg]
    rw [MarkDeleted_missing oc id hg, hi]
    simp [hk]
  | some obj =>
    have hk : ¬ id ∉ oc.Cache.keys := fun hn =>
      Option.some_ne_none obj (hg ▸ (GoMap.get?_eq_none_iff oc.Cache id).mpr hn)
    have hi : oc.IsDeleted id = (IsDeleted0 obj.Flags, none) := by
      simp [ObjectCache.IsDeleted, hg]
    rw [MarkDeleted_found oc id obj hg, hi]
    simp [hk]

/-- On the cache holding `a`, `b`, `c`: marking `missing` returns false and
leaves the cache, asking about it returns the error that carries `missing`. -/
theorem not_found_asymmetry_witness :
    "missing" ∉ abcCache.Cache.keys
      ∧ (abcCache.MarkDeleted "missing").2 = false
      ∧ (abcCache.MarkDeleted "missing").1 = abcCache
      ∧ abcCache.IsDeleted "missing" = (false, some (ERR.OBJECT_NOT_FOUND "missing")) :=
  ⟨by decide, by decide,
    (not_found_asymmetry abcCache "missing").2.1 (by decide),
    (not_found_asymmetry abcCache "missing").2.2.2 (by decide)⟩

/-- C7 fails as stated: the object under `a` has status 3, whose bit 0 is
set, and `IsDeleted("a")` returns `(false, nil)`. -/
theorem is_deleted_bit0_counterexample :
    flags3Cache.Cache.get? "a" = some ⟨3, 0, 0⟩
      ∧ Nat.testBit (Object.Flags ⟨3, 0, 0⟩) 0 = true
      ∧ flags3Cache.IsDeleted "a" = (false, none) := by
  decide

/-- C7, amended: for every cache and every id that is a key of its map,
`IsDeleted(id)` returns `(b, nil)` where `b` is true exactly when the flags of
the object are equal to 1: bit 0 is set and no other status bit is. -/
theorem is_deleted_flags_eq_one (oc : ObjectCache) (id : String) (obj : Object)
    (h : oc.Cache.get? id = some obj) :
    oc.IsDeleted id = (decide (obj.Flags = 1), none)
      ∧ (decide (obj.Flags = 1) = true
          ↔ Nat.testBit obj.Flags 0 = true ∧ obj.Flags / 2 = 0) := by
  refine ⟨by simp only [ObjectCache.IsDeleted, h, IsDeleted0]; rfl, ?_⟩
  rw [decide_eq_true_iff, Nat.testBit_zero, decide_eq_true_iff]
  omega

/-- On the cache whose object `a` has status 3, `IsDeleted("a")` is false:
3 is not 1. -/
theorem is_deleted_flags_eq_one_witness :
    flags3Cache.Cache.get? "a" = some ⟨3, 0, 0⟩
      ∧ flags3Cache.IsDeleted "a" = (decide (Object.Flags ⟨3, 0, 0⟩ = 1), none)
      ∧ (decide (Object.Flags ⟨3, 0, 0⟩ = 1) = true
          ↔ Nat.testBit (Object.Flags ⟨3, 0, 0⟩) 0 = true
            ∧ Object.Flags ⟨3, 0, 0⟩ / 2 = 0) :=
  ⟨by decide, is_deleted_flags_eq_one flags3Cache "a" ⟨3, 0, 0⟩ (by decide)⟩

/-- C8: for every cache and every id that is a key of its map, a second
`MarkDeleted(id)` after a first one returns true and leaves the cache as the
first call left it: `id` is still a key and `IsDeleted(id)` is still
`(true, nil)`. -/
theorem mark_deleted_idempotent (oc : ObjectCache) (id : String) (h : id ∈ oc.Cache.keys) :
    ((oc.MarkDeleted id).1.MarkDeleted id).2 = true
      ∧ ((oc.MarkDeleted id).1.MarkDeleted id).1 = (oc.MarkDeleted id).1
      ∧ id ∈ ((oc.MarkDeleted id).1.MarkDeleted id).1.Cache.keys
      ∧ ((oc.MarkDeleted id).1.MarkDeleted id).1.IsDeleted id = (true, none) := by
  obtain ⟨obj, hobj⟩ := GoMap.get?_isSome_of_mem_keys oc.Cache id h
  have h1 := get?_after_MarkDeleted oc id obj hobj
  have hsame : ((oc.MarkDeleted id).1.MarkDeleted id).1 = (oc.MarkDeleted id).1 := by
    rw [MarkDeleted_found _ id _ h1, MarkDeleted_found oc id obj hobj]
    simp only
    rw [GoMap.modify_modify oc.Cache id (fun o => o.SetFlags 1) (fun _ => rfl)
      (fun _ => rfl)]
  have hkeys : id ∈ (oc.MarkDeleted id).1.Cache.keys := by
    rw [MarkDeleted_found oc id obj hobj]
    simp only [GoMap.keys_modify]
    exact h
  refine ⟨by rw [MarkDeleted_found _ id _ h1], hsame, ?_, ?_⟩
  · rw [hsame]
    exact hkeys
  · rw [hsame]
    exact IsDeleted_after_MarkDeleted oc id obj hobj

/-- Marking `c` twice in the cache holding `a`, `b`, `c`. -/
theorem mark_deleted_idempotent_witness :
    "c" ∈ abcCache.Cache.keys
      ∧ ((abcCache.MarkDeleted "c").1.MarkDeleted "c").2 = true
      ∧ ((abcCache.MarkDeleted "c").1.MarkDeleted "c").1 = (abcCache.MarkDeleted "c").1
      ∧ "c" ∈ ((abcCache.MarkDeleted "c").1.MarkDeleted "c").1.Cache.keys
      ∧ ((abcCache.MarkDeleted "c").1.MarkDeleted "c").1.IsDeleted "c" = (true, none) :=
  ⟨by decide, mark_deleted_idempotent abcCache "c" (by decide)⟩

/-! ## Reclamation through the cache -/

/-- A run of either policy on a well-shaped argument list keeps the entries
whose object fails some test `p` that only soft-deleted objects pass, and
returns the number of entries that pass it. -/
theorem age_policy_shape (cache : GoMap) (limit : Int) :
    ∃ p : Object → Bool, (∀ obj, p obj = true → IsDeleted0 obj.Flags = true)
      ∧ (AgeBasedGcFunc cache [Value.InfoAge limit]).1.entries
          = cache.entries.filter (fun e => !p e.2)
      ∧ (AgeBasedGcFunc cache [Value.InfoAge limit]).2
          = .ok (cache.entries.countP (fun e => p e.2)) := by
  obtain ⟨hent, hret⟩ := AgeBasedGcFunc_run cache limit
  refine ⟨agedOut limit, ?_, hent, hret⟩
  intro obj hp
  simp only [agedOut, Bool.and_eq_true] at hp
  exact hp.1

theorem size_policy_shape (cache : GoMap) (limit : Nat) :
    ∃ p : Object → Bool, (∀ obj, p obj = true → IsDeleted0 obj.Flags = true)
      ∧ (SizeBasedGcFunc cache [Value.uint16 limit]).1.entries
          = cache.entries.filter (fun e => !p e.2)
      ∧ (SizeBasedGcFunc cache [Value.uint16 limit]).2
          = .ok (cache.entries.countP (fun e => p e.2)) := by
  by_cases h : cache.len ≤ limit
  · refine ⟨fun _ => false, by simp, ?_, ?_⟩
    · rw [SizeBasedGcFunc_idle cache limit h]
      simp
    · rw [SizeBasedGcFunc_idle cache limit h]
      simp
  · obtain ⟨hent, hret⟩ := SizeBasedGcFunc_run cache limit (Nat.lt_of_not_le h)
    exact ⟨fun obj => IsDeleted0 obj.Flags, fun _ hp => hp, hent, hret⟩

theorem Gc_of_ok (oc : ObjectCache) (gc : GcFunc) (hgc : oc.gc = some gc)
    (n : Nat) (hn : (gc oc.Cache oc.gcArgs).2 = .ok n) :
    oc.Gc = ({ oc with Cache := (gc oc.Cache oc.gcArgs).1 },
      .ok (if n > 0 then [⟨n, (gc oc.Cache oc.gcArgs).1.len⟩] else [])) := by
  unfold ObjectCache.Gc
  rw [hgc]
  simp only
  generalize gc oc.Cache oc.gcArgs = r at hn
  obtain ⟨cache, res⟩ := r
  simp only at hn
  subst hn
  by_cases h0 : n > 0 <;> simp [h0]

/-- A map that kept the entries failing a test that only soft-deleted
objects pass: live entries stay, and what stays is as before. -/
theorem kept_of_shape (m m' : GoMap) (p : Object → Bool)
    (hp : ∀ obj, p obj = true → IsDeleted0 obj.Flags = true)
    (hent : m'.entries = m.entries.filter (fun e => !p e.2)) :
    (∀ id obj, m.get? id = some obj → IsDeleted0 obj.Flags = false →
        m'.get? id = some obj)
      ∧ (∀ id obj, m'.get? id = some obj → m.get? id = some obj) := by
  have hget := get?_of_filter m m' (fun obj => !p obj) hent
  constructor
  · intro id obj hin hlive
    rw [hget, hin]
    have hpo : p obj = false := by
      cases hc : p obj with
      | false => rfl
      | true => rw [hp obj hc] at hlive; exact absurd hlive (by decide)
    simp [Option.filter, hpo]
  · intro id obj hout
    rw [hget, Option.filter_eq_some] at hout
    exact hout.1

/-- C9: a cache built by `NewFixedSizeObjectCache(c)` or by
`NewTimeWindowObjectCache(a)` and then holding any map `m`: `Gc()` returns
without panicking, every entry of `m` that is not soft-deleted is still there
with the same object, whatever its age and however far over capacity the cache
is, and every entry of the map left by `Gc()` is an entry of `m` with the same
object, flags included. -/
theorem gc_keeps_live_entries (c : Nat) (a : Int) (m : GoMap) :
    ((∃ log, ((NewFixedSizeObjectCache c).populate m).Gc.2 = .ok log)
        ∧ (∀ id obj, m.get? id = some obj → IsDeleted0 obj.Flags = false →
            ((NewFixedSizeObjectCache c).populate m).Gc.1.Cache.get? id = some obj)
        ∧ (∀ id obj, ((NewFixedSizeObjectCache c).populate m).Gc.1.Cache.get? id = some obj →
            m.get? id = some obj))
      ∧ ((∃ log, ((NewTimeWindowObjectCache a).populate m).Gc.2 = .ok log)
        ∧ (∀ id obj, m.get? id = some obj → IsDeleted0 obj.Flags = false →
            ((NewTimeWindowObjectCache a).populate m).Gc.1.Cache.get? id = some obj)
        ∧ (∀ id obj, ((NewTimeWindowObjectCache a).populate m).Gc.1.Cache.get? id = some obj →
            m.get? id = some obj)) := by
  constructor
  · obtain ⟨p, hp, hent, hret⟩ := size_policy_shape m c
    have hgc := Gc_of_ok ((NewFixedSizeObjectCache c).populate m) SizeBasedGcFunc rfl _ hret
    rw [hgc]
    exact ⟨⟨_, rfl⟩, kept_of_shape m _ p hp hent⟩
  · obtain ⟨p, hp, hent, hret⟩ := age_policy_shape m a
    have hgc := Gc_of_ok ((NewTimeWindowObjectCache a).populate m) AgeBasedGcFunc rfl _ hret
    rw [hgc]
    exact ⟨⟨_, rfl⟩, kept_of_shape m _ p hp hent⟩

/-- C10: for both policies, on every map and every well-shaped argument, the
call returns an integer `n` with `n = len(cache before) - len(cache after)`,
the map has not grown, and every key afterwards was a key before. -/
theorem policy_returns_removed_count (cache : GoMap) (limit : Int) (capacity : Nat) :
    (∃ n, (AgeBasedGcFunc cache [Value.InfoAge limit]).2 = .ok n
        ∧ n = cache.len - (AgeBasedGcFunc cache [Value.InfoAge limit]).1.len
        ∧ (AgeBasedGcFunc cache [Value.InfoAge limit]).1.len ≤ cache.len
        ∧ (AgeBasedGcFunc cache [Value.InfoAge limit]).1.keys ⊆ cache.keys)
      ∧ (∃ n, (SizeBasedGcFunc cache [Value.uint16 capacity]).2 = .ok n
        ∧ n = cache.len - (SizeBasedGcFunc cache [Value.uint16 capacity]).1.len
        ∧ (SizeBasedGcFunc cache [Value.uint16 capacity]).1.len ≤ cache.len
        ∧ (SizeBasedGcFunc cache [Value.uint16 capacity]).1.keys ⊆ cache.keys) := by
  constructor
  · obtain ⟨p, _, hent, hret⟩ := age_policy_shape cache limit
    have hlen := len_of_filter cache _ p hent
    exact ⟨_, hret, by omega, by omega, keys_of_filter cache _ _ hent⟩
  · obtain ⟨p, _, hent, hret⟩ := size_policy_shape cache capacity
    have hlen := len_of_filter cache _ p hent
    exact ⟨_, hret, by omega, by omega, keys_of_filter cache _ _ hent⟩

/-! ## Ill-shaped argument lists -/

/-- C11: a policy called with an argument list that is not exactly one
argument of its type (`InfoAge` for the age policy, `uint16` for the size
policy) panics and leaves the map exactly as it was. -/
theorem policy_wrong_shape_panics_untouched (cache : GoMap) (args : List Value) :
    ((∀ limit, args ≠ [Value.InfoAge limit]) →
        ∃ p, AgeBasedGcFunc cache args = (cache, .error p))
      ∧ ((∀ limit, args ≠ [Value.uint16 limit]) →
        ∃ p, SizeBasedGcFunc cache args = (cache, .error p)) := by
  constructor
  · intro h
    match args, h with
    | [], _ => exact ⟨_, rfl⟩
    | [v], h =>
      cases v with
      | InfoAge d => exact absurd rfl (h d)
      | uint16 n => exact ⟨_, rfl⟩
      | Duration d => exact ⟨_, rfl⟩
      | int n => exact ⟨_, rfl⟩
      | string s => exact ⟨_, rfl⟩
      | nil => exact ⟨_, rfl⟩
    | _ :: _ :: _, _ => exact ⟨_, rfl⟩
  · intro h
    match args, h with
    | [], _ => exact ⟨_, rfl⟩
    | [v], h =>
      cases v with
      | InfoAge d => exact ⟨_, rfl⟩
      | uint16 n => exact absurd rfl (h n)
      | Duration d => exact ⟨_, rfl⟩
      | int n => exact ⟨_, rfl⟩
      | string s => exact ⟨_, rfl⟩
      | nil => exact ⟨_, rfl⟩
    | _ :: _ :: _, _ => exact ⟨_, rfl⟩

/-- The age policy given a `uint16`, and the size policy given two
arguments, on the map holding `a`, `b`, `c` with `a` and `b` soft-deleted:
both panic and the three entries are still there. -/
theorem policy_wrong_shape_panics_untouched_witness :
    (∃ p, AgeBasedGcFunc abcMap [Value.uint16 0] = (abcMap, .error p))
      ∧ (∃ p, SizeBasedGcFunc abcMap [Value.uint16 0, Value.uint16 0] = (abcMap, .error p))
      ∧ (AgeBasedGcFunc abcMap [Value.uint16 0]).1.len = 3 :=
  ⟨(policy_wrong_shape_panics_untouched abcMap [Value.uint16 0]).1
      (fun limit h => by cases h),
    (policy_wrong_shape_panics_untouched abcMap [Value.uint16 0, Value.uint16 0]).2
      (fun limit h => by cases h),
    by decide⟩

/-! ## The bound policy -/

theorem Gc_of_size (oc : ObjectCache) (c : Nat) (hgc : oc.gc = some SizeBasedGcFunc)
    (hargs : oc.gcArgs = [Value.uint16 c]) :
    ∃ n, (SizeBasedGcFunc oc.Cache [Value.uint16 c]).2 = .ok n
      ∧ n + (SizeBasedGcFunc oc.Cache [Value.uint16 c]).1.len = oc.Cache.len
      ∧ oc.Gc = ({ oc with Cache := (SizeBasedGcFunc oc.Cache [Value.uint16 c]).1 },
          .ok (if n > 0 then [⟨n, (SizeBasedGcFunc oc.Cache [Value.uint16 c]).1.len⟩]
            else [])) := by
  obtain ⟨p, _, hent, hret⟩ := size_policy_shape oc.Cache c
  have hlen := len_of_filter oc.Cache _ p hent
  have h := Gc_of_ok oc SizeBasedGcFunc hgc _ (by rw [hargs]; exact hret)
  rw [hargs] at h
  exact ⟨_, hret, hlen, by rw [h, hargs]⟩

theorem Gc_of_age (oc : ObjectCache) (a : Int) (hgc : oc.gc = some AgeBasedGcFunc)
    (hargs : oc.gcArgs = [Value.InfoAge a]) :
    ∃ n, (AgeBasedGcFunc oc.Cache [Value.InfoAge a]).2 = .ok n
      ∧ n + (AgeBasedGcFunc oc.Cache [Value.InfoAge a]).1.len = oc.Cache.len
      ∧ oc.Gc = ({ oc with Cache := (AgeBasedGcFunc oc.Cache [Value.InfoAge a]).1 },
          .ok (if n > 0 then [⟨n, (AgeBasedGcFunc oc.Cache [Value.InfoAge a]).1.len⟩]
            else [])) := by
  obtain ⟨p, _, hent, hret⟩ := age_policy_shape oc.Cache a
  have hlen := len_of_filter oc.Cache _ p hent
  have h := Gc_of_ok oc AgeBasedGcFunc hgc _ (by rw [hargs]; exact hret)
  rw [hargs] at h
  exact ⟨_, hret, hlen, by rw [h, hargs]⟩

/-- C12: `NewFixedSizeObjectCache(c)` returns a cache with an empty map, and
whatever map `m` the cache then holds, `Gc()` leaves the map that
`SizeBasedGcFunc(m, c)` leaves, changes no other field, and logs according to
the integer `n` that call returns; `NewTimeWindowObjectCache(a)` likewise with
`AgeBasedGcFunc(m, a)`.  This holds for every `c`, 0 included, and every
`a`. -/
theorem constructors_bind_policy (c : Nat) (a : Int) :
    ((NewFixedSizeObjectCache c).Cache = GoMap.empty
        ∧ ∀ m, ∃ n, (SizeBasedGcFunc m [Value.uint16 c]).2 = .ok n
          ∧ ((NewFixedSizeObjectCache c).populate m).Gc
            = ((NewFixedSizeObjectCache c).populate (SizeBasedGcFunc m [Value.uint16 c]).1,
                .ok (if n > 0 then [⟨n, (SizeBasedGcFunc m [Value.uint16 c]).1.len⟩]
                  else [])))
      ∧ ((NewTimeWindowObjectCache a).Cache = GoMap.empty
        ∧ ∀ m, ∃ n, (AgeBasedGcFunc m [Value.InfoAge a]).2 = .ok n
          ∧ ((NewTimeWindowObjectCache a).populate m).Gc
            = ((NewTimeWindowObjectCache a).populate (AgeBasedGcFunc m [Value.InfoAge a]).1,
                .ok (if n > 0 then [⟨n, (AgeBasedGcFunc m [Value.InfoAge a]).1.len⟩]
                  else []))) := by
  refine ⟨⟨rfl, fun m => ?_⟩, ⟨rfl, fun m => ?_⟩⟩
  · obtain ⟨n, hret, _, hgc⟩ :=
      Gc_of_size ((NewFixedSizeObjectCache c).populate m) c rfl rfl
    exact ⟨n, hret, hgc⟩
  · obtain ⟨n, hret, _, hgc⟩ :=
      Gc_of_age ((NewTimeWindowObjectCache a).populate m) a rfl rfl
    exact ⟨n, hret, hgc⟩

/-- The call `Gc()` on the cache of capacity 2 holding `a`, `b`, `c`: the map
left holds `c` alone, as after `SizeBasedGcFunc` with capacity 2. -/
theorem constructors_bind_policy_witness :
    abcCache.Gc.1.Cache.keys = ["c"]
      ∧ (SizeBasedGcFunc abcMap [Value.uint16 2]).1.keys = ["c"]
      ∧ (NewFixedSizeObjectCache 0).Cache = GoMap.empty
      ∧ (NewTimeWindowObjectCache 1000).Cache = GoMap.empty :=
  ⟨by decide, by decide, (constructors_bind_policy 0 1000).1.1,
    (constructors_bind_policy 0 1000).2.1⟩

/-! ## Calls through the interface -/

theorem MarkDeleted_frame (oc : ObjectCache) (id : String) :
    (oc.MarkDeleted id).1.gc = oc.gc ∧ (oc.MarkDeleted id).1.gcArgs = oc.gcArgs
      ∧ (oc.MarkDeleted id).1.options = oc.options
      ∧ (oc.MarkDeleted id).1.Cache.keys = oc.Cache.keys := by
  unfold ObjectCache.MarkDeleted
  cases oc.Cache.get? id with
  | none => exact ⟨rfl, rfl, rfl, rfl⟩
  | some obj => exact ⟨rfl, rfl, rfl, GoMap.keys_modify _ _ _⟩

theorem call_size_frame (oc : ObjectCache) (c : Nat) (hgc : oc.gc = some SizeBasedGcFunc)
    (hargs : oc.gcArgs = [Value.uint16 c]) (k : Call) :
    (oc.call k).2 = none ∧ (oc.call k).1.gc = some SizeBasedGcFunc
      ∧ (oc.call k).1.gcArgs = [Value.uint16 c] := by
  cases k with
  | Insert id obj => exact ⟨rfl, hgc, hargs⟩
  | MarkDeleted id =>
    obtain ⟨h1, h2, _, _⟩ := MarkDeleted_frame oc id
    exact ⟨rfl, h1.trans hgc, h2.trans hargs⟩
  | IsDeleted id => exact ⟨rfl, hgc, hargs⟩
  | Gc =>
    obtain ⟨n, _, _, h⟩ := Gc_of_size oc c hgc hargs
    have hc : oc.call Call.Gc
        = ({ oc with Cache := (SizeBasedGcFunc oc.Cache [Value.uint16 c]).1 }, none) := by
      simp only [ObjectCache.call, h]
    rw [hc]
    exact ⟨rfl, hgc, hargs⟩

theorem call_age_frame (oc : ObjectCache) (a : Int) (hgc : oc.gc = some AgeBasedGcFunc)
    (hargs : oc.gcArgs = [Value.InfoAge a]) (k : Call) :
    (oc.call k).2 = none ∧ (oc.call k).1.gc = some AgeBasedGcFunc
      ∧ (oc.call k).1.gcArgs = [Value.InfoAge a] := by
  cases k with
  | Insert id obj => exact ⟨rfl, hgc, hargs⟩
  | MarkDeleted id =>
    obtain ⟨h1, h2, _, _⟩ := MarkDeleted_frame oc id
    exact ⟨rfl, h1.trans hgc, h2.trans hargs⟩
  | IsDeleted id => exact ⟨rfl, hgc, hargs⟩
  | Gc =>
    obtain ⟨n, _, _, h⟩ := Gc_of_age oc a hgc hargs
    have hc : oc.call Call.Gc
        = ({ oc with Cache := (AgeBasedGcFunc oc.Cache [Value.InfoAge a]).1 }, none) := by
      simp only [ObjectCache.call, h]
    rw [hc]
    exact ⟨rfl, hgc, hargs⟩

theorem run_size_frame (calls : List Call) (oc : ObjectCache) (c : Nat)
    (hgc : oc.gc = some SizeBasedGcFunc) (hargs : oc.gcArgs = [Value.uint16 c]) :
    (oc.run calls).2 = none ∧ (oc.run calls).1.gc = some SizeBasedGcFunc
      ∧ (oc.run calls).1.gcArgs = [Value.uint16 c] := by
  induction calls generalizing oc with
  | nil => exact ⟨rfl, hgc, hargs⟩
  | cons k ks ih =>
    obtain ⟨h0, h1, h2⟩ := call_size_frame oc c hgc hargs k
    have hrun : oc.run (k :: ks) = (oc.call k).1.run ks := by
      rw [ObjectCache.run]
      generalize oc.call k = r at h0
      obtain ⟨oc', res⟩ := r
      simp only at h0
      subst h0
      rfl
    rw [hrun]
    exact ih (oc.call k).1 h1 h2

theorem run_age_frame (calls : List Call) (oc : ObjectCache) (a : Int)
    (hgc : oc.gc = some AgeBasedGcFunc) (hargs : oc.gcArgs = [Value.InfoAge a]) :
    (oc.run calls).2 = none ∧ (oc.run calls).1.gc = some AgeBasedGcFunc
      ∧ (oc.run calls).1.gcArgs = [Value.InfoAge a] := by
  induction calls generalizing oc with
  | nil => exact ⟨rfl, hgc, hargs⟩
  | cons k ks ih =>
    obtain ⟨h0, h1, h2⟩ := call_age_frame oc a hgc hargs k
    have hrun : oc.run (k :: ks) = (oc.call k).1.run ks := by
      rw [ObjectCache.run]
      generalize oc.call k = r at h0
      obtain ⟨oc', res⟩ := r
      simp only at h0
      subst h0
      rfl
    rw [hrun]
    exact ih (oc.call k).1 h1 h2

/-- C13: after any sequence of insertions and of calls of `MarkDeleted`,
`IsDeleted` and `Gc` on a cache built by `NewFixedSizeObjectCache(c)`, no call
has panicked, the bound policy is still `SizeBasedGcFunc`, its argument list
is still the single `uint16` value `c`, and a further `Gc()` returns without
panicking; likewise for `NewTimeWindowObjectCache(a)` with `AgeBasedGcFunc`
and the single `InfoAge` value `a`. -/
theorem gc_never_panics_when_reachable (c : Nat) (a : Int) (calls : List Call) :
    (((NewFixedSizeObjectCache c).run calls).2 = none
        ∧ ((NewFixedSizeObjectCache c).run calls).1.gc = some SizeBasedGcFunc
        ∧ ((NewFixedSizeObjectCache c).run calls).1.gcArgs = [Value.uint16 c]
        ∧ ∃ log, ((NewFixedSizeObjectCache c).run calls).1.Gc.2 = .ok log)
      ∧ (((NewTimeWindowObjectCache a).run calls).2 = none
        ∧ ((NewTimeWindowObjectCache a).run calls).1.gc = some AgeBasedGcFunc
        ∧ ((NewTimeWindowObjectCache a).run calls).1.gcArgs = [Value.InfoAge a]
        ∧ ∃ log, ((NewTimeWindowObjectCache a).run calls).1.Gc.2 = .ok log) := by
  constructor
  · obtain ⟨h0, h1, h2⟩ := run_size_frame calls (NewFixedSizeObjectCache c) c rfl rfl
    obtain ⟨n, _, _, h⟩ := Gc_of_size _ c h1 h2
    exact ⟨h0, h1, h2, _, by rw [h]⟩
  · obtain ⟨h0, h1, h2⟩ := run_age_frame calls (NewTimeWindowObjectCache a) a rfl rfl
    obtain ⟨n, _, _, h⟩ := Gc_of_age _ a h1 h2
    exact ⟨h0, h1, h2, _, by rw [h]⟩

theorem GoMap.keys_subset_store (m : GoMap) (id : String) (obj : Object) :
    m.keys ⊆ (m.store id obj).keys := by
  intro k hk
  obtain ⟨e, he, hek⟩ := List.mem_map.mp hk
  unfold GoMap.keys GoMap.store
  by_cases hid : k = id
  · rw [hid]
    exact List.mem_cons_self _ _
  · refine List.mem_cons_of_mem _ (List.mem_map.mpr ⟨e, List.mem_filter.mpr ⟨he, ?_⟩, hek⟩)
    rw [bne_iff_ne, hek]
    exact hid

/-- C14: for every cache and every id, present or absent, `MarkDeleted(id)`
and `IsDeleted(id)` leave the keys of the map exactly as they were; of the
calls an owner can make, only `Gc()` can make a key of the map disappear. -/
theorem no_implicit_reclaim (oc : ObjectCache) (id : String) :
    (oc.MarkDeleted id).1.Cache.keys = oc.Cache.keys
      ∧ (oc.call (Call.MarkDeleted id)).1.Cache.keys = oc.Cache.keys
      ∧ (oc.call (Call.IsDeleted id)).1.Cache.keys = oc.Cache.keys
      ∧ (∀ (k : Call) (id' : String), id' ∈ oc.Cache.keys →
          id' ∉ (oc.call k).1.Cache.keys → k = Call.Gc) := by
  refine ⟨(MarkDeleted_frame oc id).2.2.2, (MarkDeleted_frame oc id).2.2.2, rfl, ?_⟩
  intro k id' hin hout
  cases k with
  | Insert i obj => exact absurd (GoMap.keys_subset_store oc.Cache i obj hin) hout
  | MarkDeleted i =>
    have hk : (oc.call (Call.MarkDeleted i)).1.Cache.keys = oc.Cache.keys :=
      (MarkDeleted_frame oc i).2.2.2
    rw [hk] at hout
    exact absurd hin hout
  | IsDeleted i => exact absurd hin hout
  | Gc => rfl

/-- On the cache holding `a`, `b`, `c` with `a` and `b` soft-deleted: marking
and asking about `a` or about `missing` keep the three keys, and `Gc()` is a
call after which `a` is no longer a key. -/
theorem no_implicit_reclaim_witness :
    (abcCache.MarkDeleted "a").1.Cache.keys = ["a", "b", "c"]
      ∧ (abcCache.call (Call.MarkDeleted "missing")).1.Cache.keys = abcCache.Cache.keys
      ∧ (abcCache.call (Call.IsDeleted "missing")).1.Cache.keys = abcCache.Cache.keys
      ∧ "a" ∈ abcCache.Cache.keys
      ∧ "a" ∉ (abcCache.call Call.Gc).1.Cache.keys
      ∧ Call.Gc = Call.Gc :=
  ⟨by decide, (no_implicit_reclaim abcCache "missing").2.1,
    (no_implicit_reclaim abcCache "missing").2.2.1, by decide, by decide,
    (no_implicit_reclaim abcCache "a").2.2.2 Call.Gc "a" (by decide) (by decide)⟩

/-! ## The record logged by `Gc` -/

theorem log_of_count (n before after : Nat) (h : n + after = before) :
    (if n > 0 then [(⟨n, after⟩ : GcLog)] else [])
      = (if after < before then [(⟨before - after, after⟩ : GcLog)] else []) := by
  by_cases h0 : n > 0
  · have h1 : after < before := by omega
    have h2 : before - after = n := by omega
    simp [h0, h1, h2]
  · have h1 : ¬ after < before := by omega
    simp [h0, h1]

/-- C15: for a cache built by either constructor and holding any map `m`,
`Gc()` logs one record when the map it leaves is smaller than `m` and no
record otherwise; the record carries the number of entries removed and the
size of the map after the removals. -/
theorem gc_logs_iff_removed (c : Nat) (a : Int) (m : GoMap) :
    (((NewFixedSizeObjectCache c).populate m).Gc.2
        = .ok (if ((NewFixedSizeObjectCache c).populate m).Gc.1.Cache.len < m.len
            then [⟨m.len - ((NewFixedSizeObjectCache c).populate m).Gc.1.Cache.len,
              ((NewFixedSizeObjectCache c).populate m).Gc.1.Cache.len⟩]
            else []))
      ∧ (((NewTimeWindowObjectCache a).populate m).Gc.2
        = .ok (if ((NewTimeWindowObjectCache a).populate m).Gc.1.Cache.len < m.len
            then [⟨m.len - ((NewTimeWindowObjectCache a).populate m).Gc.1.Cache.len,
              ((NewTimeWindowObjectCache a).populate m).Gc.1.Cache.len⟩]
            else [])) := by
  constructor
  · obtain ⟨n, _, hlen, h⟩ :=
      Gc_of_size ((NewFixedSizeObjectCache c).populate m) c rfl rfl
    rw [h]
    exact congrArg Except.ok (log_of_count n m.len _ hlen)
  · obtain ⟨n, _, hlen, h⟩ :=
      Gc_of_age ((NewTimeWindowObjectCache a).populate m) a rfl rfl
    rw [h]
    exact congrArg Except.ok (log_of_count n m.len _ hlen)

/-- The scenario of capacity 2: `Gc()` on `a`, `b`, `c` with `a` and `b`
soft-deleted logs 2 removed and the size 1 of the map afterwards, not the
size 3 before; on three live entries it logs nothing. -/
theorem gc_logs_iff_removed_witness :
    abcCache.Gc.2 = .ok [⟨2, 1⟩]
      ∧ ((NewFixedSizeObjectCache 2).run abcCalls).1.Cache.keys = ["c"]
      ∧ ((NewFixedSizeObjectCache 1).populate liveMap).Gc.2 = .ok []
      ∧ ((NewFixedSizeObjectCache 2).populate abcMap).Gc.2
        = .ok (if ((NewFixedSizeObjectCache 2).populate abcMap).Gc.1.Cache.len < abcMap.len
            then [⟨abcMap.len - ((NewFixedSizeObjectCache 2).populate abcMap).Gc.1.Cache.len,
              ((NewFixedSizeObjectCache 2).populate abcMap).Gc.1.Cache.len⟩]
            else []) :=
  ⟨rfl, by decide, rfl, (gc_logs_iff_removed 2 0 abcMap).1⟩

/-! ## The flags written by `MarkDeleted` -/

/-- C16 fails as stated: in the cache that holds one object, of status 0,
under both `a` and `b`, `MarkDeleted("a")` changes the flags shown under the
other key `b` from 0 to 1. -/
theorem mark_deleted_shared_object_counterexample :
    sharedCache.Cache.get? "a" = some ⟨0, 5, 7⟩
      ∧ sharedCache.Cache.get? "b" = some ⟨0, 5, 7⟩
      ∧ "b" ≠ "a"
      ∧ (sharedCache.MarkDeleted "a").1.Cache.get? "b" = some ⟨1, 5, 7⟩
      ∧ (sharedCache.MarkDeleted "a").1.Cache.get? "b" ≠ sharedCache.Cache.get? "b" := by
  decide

/-- C16, amended: for every cache and every id that is a key of its map,
`MarkDeleted(id)` leaves under `id` the same object with flags exactly 1,
whatever the flags were; every entry that holds another object keeps its
object, flags included; an entry under another key that holds the same
object shows flags 1 as well; the keys are unchanged. -/
theorem mark_deleted_overwrites_flags (oc : ObjectCache) (id : String) (obj : Object)
    (h : oc.Cache.get? id = some obj) :
    (oc.MarkDeleted id).1.Cache.get? id = some { obj with flags := 1 }
      ∧ (∀ id' obj', oc.Cache.get? id' = some obj' → obj'.addr ≠ obj.addr →
          (oc.MarkDeleted id).1.Cache.get? id' = some obj')
      ∧ (∀ id' obj', oc.Cache.get? id' = some obj' → obj'.addr = obj.addr →
          (oc.MarkDeleted id).1.Cache.get? id' = some { obj' with flags := 1 })
      ∧ (oc.MarkDeleted id).1.Cache.keys = oc.Cache.keys := by
  have hget : ∀ id', (oc.MarkDeleted id).1.Cache.get? id'
      = (oc.Cache.get? id').map
          (fun o => if o.addr == obj.addr then o.SetFlags 1 else o) := by
    intro id'
    rw [MarkDeleted_found oc id obj h]
    exact GoMap.get?_modify oc.Cache id id' _ obj h
  refine ⟨get?_after_MarkDeleted oc id obj h, ?_, ?_, (MarkDeleted_frame oc id).2.2.2⟩
  · intro id' obj' hin hne
    rw [hget, hin]
    simp [hne]
  · intro id' obj' hin heq
    rw [hget, hin]
    simp [heq, Object.SetFlags]

/-- Marking `a`, whose status is 6, in a cache where `b` holds another
object: the status of `a` afterwards is 1, not `6 ||| 1 = 7`, and `b` keeps
its status 2. -/
theorem mark_deleted_overwrites_flags_witness :
    mixedCache.Cache.get? "a" = some ⟨6, 0, 0⟩
      ∧ (mixedCache.MarkDeleted "a").1.Cache.get? "a" = some ⟨1, 0, 0⟩
      ∧ (6 ||| 1 : Nat) = 7
      ∧ (mixedCache.MarkDeleted "a").1.Cache.get? "b" = some ⟨2, 5, 1⟩ :=
  ⟨by decide,
    (mark_deleted_overwrites_flags mixedCache "a" ⟨6, 0, 0⟩ (by decide)).1,
    by decide,
    (mark_deleted_overwrites_flags mixedCache "a" ⟨6, 0, 0⟩ (by decide)).2.1
      "b" ⟨2, 5, 1⟩ (by decide) (by decide)⟩

/-! ## Running a policy twice -/

theorem filter_twice (l : List (String × Object)) (p : Object → Bool) :
    (l.filter (fun e => !p e.2)).filter (fun e => !p e.2) = l.filter (fun e => !p e.2)
      ∧ (l.filter (fun e => !p e.2)).countP (fun e => p e.2) = 0 := by
  constructor
  · rw [List.filter_filter]
    apply List.filter_congr
    intro e _
    simp
  · rw [List.countP_eq_zero]
    intro e he
    have := (List.mem_filter.mp he).2
    simpa using this

theorem age_policy_twice (cache : GoMap) (limit : Int) :
    AgeBasedGcFunc (AgeBasedGcFunc cache [Value.InfoAge limit]).1 [Value.InfoAge limit]
      = ((AgeBasedGcFunc cache [Value.InfoAge limit]).1, .ok 0) := by
  obtain ⟨hent, _⟩ := AgeBasedGcFunc_run cache limit
  obtain ⟨hent2, hret2⟩ :=
    AgeBasedGcFunc_run (AgeBasedGcFunc cache [Value.InfoAge limit]).1 limit
  obtain ⟨hf, hc⟩ := filter_twice cache.entries (agedOut limit)
  apply Prod.ext
  · apply GoMap.ext_entries
    rw [hent2, hent, hf]
  · rw [hret2, hent, hc]

theorem size_policy_twice (cache : GoMap) (limit : Nat) :
    SizeBasedGcFunc (SizeBasedGcFunc cache [Value.uint16 limit]).1 [Value.uint16 limit]
      = ((SizeBasedGcFunc cache [Value.uint16 limit]).1, .ok 0) := by
  by_cases h : cache.len ≤ limit
  · rw [SizeBasedGcFunc_idle cache limit h]
    exact SizeBasedGcFunc_idle cache limit h
  · obtain ⟨hent, _⟩ := SizeBasedGcFunc_run cache limit (Nat.lt_of_not_le h)
    by_cases h2 : (SizeBasedGcFunc cache [Value.uint16 limit]).1.len ≤ limit
    · exact SizeBasedGcFunc_idle _ limit h2
    · obtain ⟨hent2, hret2⟩ := SizeBasedGcFunc_run
        (SizeBasedGcFunc cache [Value.uint16 limit]).1 limit (Nat.lt_of_not_le h2)
      obtain ⟨hf, hc⟩ := filter_twice cache.entries (fun obj => IsDeleted0 obj.Flags)
      apply Prod.ext
      · apply GoMap.ext_entries
        rw [hent2, hent, hf]
      · rw [hret2, hent, hc]

/-- C17: for both policies, on every map and every well-shaped argument, a
second run right after a first one returns 0 and leaves the map as the first
run left it; and after a run of the size policy on a map over capacity no
entry of the map is soft-deleted. -/
theorem policy_idempotent (cache : GoMap) (limit : Int) (capacity : Nat) :
    AgeBasedGcFunc (AgeBasedGcFunc cache [Value.InfoAge limit]).1 [Value.InfoAge limit]
        = ((AgeBasedGcFunc cache [Value.InfoAge limit]).1, .ok 0)
      ∧ SizeBasedGcFunc (SizeBasedGcFunc cache [Value.uint16 capacity]).1
          [Value.uint16 capacity]
        = ((SizeBasedGcFunc cache [Value.uint16 capacity]).1, .ok 0)
      ∧ (cache.len > capacity →
          ∀ e ∈ (SizeBasedGcFunc cache [Value.uint16 capacity]).1.entries,
            IsDeleted0 e.2.Flags = false) := by
  refine ⟨age_policy_twice cache limit, size_policy_twice cache capacity, ?_⟩
  intro hover e he
  rw [(SizeBasedGcFunc_run cache capacity hover).1] at he
  have := (List.mem_filter.mp he).2
  simpa using this

/-- The two policies run twice on concrete maps: the second run of the age
policy at threshold 1000 and of the size policy at capacity 2 return 0, and
the size policy left no soft-deleted entry. -/
theorem policy_idempotent_witness :
    (AgeBasedGcFunc (AgeBasedGcFunc graceMap [Value.InfoAge 1000]).1
        [Value.InfoAge 1000]).2 = .ok 0
      ∧ (SizeBasedGcFunc (SizeBasedGcFunc abcMap [Value.uint16 2]).1 [Value.uint16 2]).1.keys
        = ["c"]
      ∧ abcMap.len > 2
      ∧ ∀ e ∈ (SizeBasedGcFunc abcMap [Value.uint16 2]).1.entries,
          IsDeleted0 e.2.Flags = false :=
  ⟨rfl, by decide, by decide, (policy_idempotent abcMap 0 2).2.2 (by decide)⟩

/-! ## Reading and printing an `InfoAge` -/

theorem digitChar_roundtrip (d : Nat) (h : d < 10) :
    (Nat.digitChar d).isDigit = true ∧ (Nat.digitChar d).toNat - 48 = d := by
  interval_cases d <;> decide

theorem parseUintLoop_append (xs ys : List Char) (n m : Nat)
    (h : parseUintLoop xs n = (m, none)) :
    parseUintLoop (xs ++ ys) n = parseUintLoop ys m := by
  induction xs generalizing n with
  | nil =>
    simp only [parseUintLoop, Prod.mk.injEq, and_true] at h
    rw [List.nil_append, h]
  | cons c cs ih =>
    rw [List.cons_append]
    rw [parseUintLoop] at h ⊢
    by_cases h1 : (!c.isDigit) = true
    · rw [if_pos h1] at h
      cases h
    · rw [if_neg h1] at h ⊢
      by_cases h2 : n ≥ maxUint64 / 10 + 1
      · rw [if_pos h2] at h
        cases h
      · rw [if_neg h2] at h ⊢
        dsimp only at h ⊢
        by_cases h3 : ((n * 10 % 2 ^ 64 + (c.toNat - 48)) % 2 ^ 64 < n * 10 % 2 ^ 64
            || (n * 10 % 2 ^ 64 + (c.toNat - 48)) % 2 ^ 64 > maxUint64) = true
        · rw [if_pos h3] at h
          cases h
        · rw [if_neg h3] at h ⊢
          exact ih _ h

theorem parseUintLoop_digit (d n : Nat) (h : d < 10) (hn : n * 10 + d < 2 ^ 64) :
    parseUintLoop [Nat.digitChar d] n = (n * 10 + d, none) := by
  obtain ⟨h1, h2⟩ := digitChar_roundtrip d h
  have hcut : ¬ n ≥ maxUint64 / 10 + 1 := by
    unfold maxUint64
    omega
  have hn10 : n * 10 % 2 ^ 64 = n * 10 := Nat.mod_eq_of_lt (by omega)
  have hn1 : (n * 10 + d) % 2 ^ 64 = n * 10 + d := Nat.mod_eq_of_lt hn
  have hov : ¬ (n * 10 + d < n * 10 ∨ n * 10 + d > maxUint64) := by
    unfold maxUint64
    omega
  simp only [parseUintLoop, h1, h2, hcut, hn10, hn1, Bool.not_true, Bool.false_eq_true,
    if_false, Bool.or_eq_true, decide_eq_true_eq, hov]

theorem parse_decimal (fuel u : Nat) (h : u ≤ fuel) (hu : u < 2 ^ 64) :
    parseUintLoop (decimal fuel u) 0 = (u, none) := by
  induction fuel generalizing u with
  | zero =>
    have hu0 : u = 0 := by omega
    subst hu0
    rfl
  | succ f ih =>
    by_cases hlt : u < 10
    · rw [decimal, if_pos hlt, parseUintLoop_digit u 0 hlt (by omega)]
      simp
    · rw [decimal, if_neg hlt,
        parseUintLoop_append _ _ 0 (u / 10) (ih (u / 10) (by omega) (by omega)),
        parseUintLoop_digit (u % 10) (u / 10) (Nat.mod_lt _ (by decide)) (by omega)]
      congr 1
      omega

theorem decimal_head (fuel u : Nat) :
    ∃ c cs, decimal fuel u = c :: cs ∧ c.isDigit = true := by
  induction fuel generalizing u with
  | zero => exact ⟨_, [], rfl, (digitChar_roundtrip (u % 10) (Nat.mod_lt _ (by decide))).1⟩
  | succ f ih =>
    by_cases hlt : u < 10
    · exact ⟨_, [], by rw [decimal, if_pos hlt], (digitChar_roundtrip u hlt).1⟩
    · obtain ⟨c, cs, hd, hc⟩ := ih (u / 10)
      exact ⟨c, cs ++ [Nat.digitChar (u % 10)], by rw [decimal, if_neg hlt, hd]; rfl, hc⟩

theorem wrap64_of_small (n : Nat) (h : n < 2 ^ 63) : wrap64 (n : Int) = (n : Int) := by
  unfold wrap64
  omega

theorem wrap64_neg_of_small (n : Nat) (h : n ≤ 2 ^ 63) :
    wrap64 (-(wrap64 (n : Int))) = -(n : Int) := by
  unfold wrap64
  omega

theorem digit_not_sign (c : Char) (hc : c.isDigit = true) :
    (c == '+') = false ∧ (c == '-') = false := by
  constructor
  · rw [beq_eq_false_iff_ne]
    intro h
    rw [h] at hc
    exact absurd hc (by decide)
  · rw [beq_eq_false_iff_ne]
    intro h
    rw [h] at hc
    exact absurd hc (by decide)

theorem ParseInt_digits (c : Char) (cs : List Char) (n : Nat) (hc : c.isDigit = true)
    (hp : parseUintLoop (c :: cs) 0 = (n, none)) (hn : n < 2 ^ 63) :
    ParseInt (String.mk (c :: cs)) = .ok (n : Int) := by
  obtain ⟨hplus, hminus⟩ := digit_not_sign c hc
  have hlt : ¬ n ≥ 2 ^ 63 := by omega
  simp only [ParseInt, String.toList, hplus, hminus, Bool.or_self, Bool.false_eq_true,
    if_false, ParseUint, List.isEmpty_cons, hp, Bool.not_false, Bool.true_and,
    decide_eq_true_eq, hlt, Bool.false_and, wrap64_of_small n hn]

theorem ParseInt_minus_digits (c : Char) (cs : List Char) (n : Nat)
    (hp : parseUintLoop (c :: cs) 0 = (n, none)) (hn : n ≤ 2 ^ 63) :
    ParseInt (String.mk ('-' :: c :: cs)) = .ok (-(n : Int)) := by
  have hgt : ¬ n > 2 ^ 63 := by omega
  have hplus : ('-' == '+') = false := by decide
  simp only [ParseInt, String.toList, hplus, beq_self_eq_true, Bool.or_true, if_true,
    ParseUint, List.isEmpty_cons, Bool.false_eq_true, if_false, hp, Bool.not_true,
    Bool.false_and, Bool.true_and, decide_eq_true_eq, hgt, wrap64_neg_of_small n hn]

theorem ParseInt_Sprintf_d (t : Int) (hlo : -2 ^ 63 ≤ t) (hhi : t < 2 ^ 63) :
    ParseInt (Sprintf_d t) = .ok t := by
  obtain ⟨c, cs, hdec, hc⟩ := decimal_head t.natAbs t.natAbs
  have hparse := parse_decimal t.natAbs t.natAbs le_rfl (by omega)
  rw [hdec] at hparse
  unfold Sprintf_d
  by_cases hneg : t < 0
  · rw [if_pos hneg, hdec, ParseInt_minus_digits c cs t.natAbs hparse (by omega)]
    congr 1
    omega
  · rw [if_neg hneg, hdec, ParseInt_digits c cs t.natAbs hc hparse (by omega)]
    congr 1
    omega

theorem ParseInt_range (s : String) (v : Int) (h : ParseInt s = .ok v) :
    -2 ^ 63 ≤ v ∧ v < 2 ^ 63 := by
  unfold ParseInt at h
  split at h
  · exact Except.noConfusion h
  · dsimp only at h
    split at h
    · exact Except.noConfusion h
    · split_ifs at h <;>
        first
        | exact Except.noConfusion h
        | (have hv := Except.ok.inj h
           rw [← hv]
           unfold wrap64
           omega)

theorem wrap64_fixed_iff (t : Int) (hlo : -2 ^ 63 ≤ t) (hhi : t < 2 ^ 63) :
    wrap64 (t * Millisecond) = t ↔ t = 0 := by
  unfold wrap64 Millisecond
  constructor
  · intro h
    omega
  · intro h
    subst h
    decide

theorem wrap64_range (x : Int) :
    -2 ^ 63 ≤ wrap64 x ∧ wrap64 x < 2 ^ 63 ∧ (wrap64 x - x) % 2 ^ 64 = 0 := by
  unfold wrap64
  omega

/-- C18: `InfoAge.Set` parses its argument with `ParseInt(vrep, 10, 64)`; a
parsed value `v` lies in the signed 64-bit range and `v * 1,000,000` cut to
64 bits is stored with a nil error; when the text does not parse the receiver
keeps its value and the error is returned.  `InfoAge.String` prints the stored
count in decimal, so parsing it back gives the count itself: `Set(String(t))`
stores `t * 1,000,000` cut to 64 bits, which is `t` only when `t = 0`. -/
theorem infoage_set_string :
    (∀ (t : Int) (vrep : String) (v : Int), ParseInt vrep = .ok v →
        (-2 ^ 63 ≤ v ∧ v < 2 ^ 63)
          ∧ InfoAge.Set t vrep = (wrap64 (v * 1000000), none))
      ∧ (∀ (t : Int) (vrep : String) (e : NumError), ParseInt vrep = .error e →
          InfoAge.Set t vrep = (t, some e))
      ∧ (∀ t : Int, -2 ^ 63 ≤ t → t < 2 ^ 63 → ParseInt (InfoAge.String t) = .ok t)
      ∧ (∀ t0 t : Int, -2 ^ 63 ≤ t → t < 2 ^ 63 →
          InfoAge.Set t0 (InfoAge.String t) = (wrap64 (t * 1000000), none))
      ∧ (∀ t : Int, -2 ^ 63 ≤ t → t < 2 ^ 63 → (wrap64 (t * 1000000) = t ↔ t = 0))
      ∧ (∀ x : Int, -2 ^ 63 ≤ wrap64 x ∧ wrap64 x < 2 ^ 63
          ∧ (wrap64 x - x) % 2 ^ 64 = 0) := by
  refine ⟨?_, ?_, ?_, ?_, ?_, wrap64_range⟩
  · intro t vrep v h
    exact ⟨ParseInt_range vrep v h, by simp only [InfoAge.Set, h, Millisecond]⟩
  · intro t vrep e h
    simp only [InfoAge.Set, h]
  · intro t hlo hhi
    exact ParseInt_Sprintf_d t hlo hhi
  · intro t0 t hlo hhi
    simp only [InfoAge.Set, InfoAge.String, ParseInt_Sprintf_d t hlo hhi, Millisecond]
  · intro t hlo hhi
    exact wrap64_fixed_iff t hlo hhi

/-- The text 1500 is stored as 1500000000; the text 12a leaves the receiver
7 and returns a syntax error; twenty nines followed by a letter overflow
`uint64` before the letter is read and return a range error, nineteen nines
followed by a letter a syntax error; the largest 64-bit count of milliseconds
wraps to -1000000; the stored 1500 prints as 1500 and is set back as
1500000000; 0 prints as 0 and is set back as 0. -/
theorem infoage_set_string_witness :
    InfoAge.Set 7 "1500" = (1500000000, none)
      ∧ InfoAge.Set 7 "12a" = (7, some NumError.Syntax)
      ∧ InfoAge.Set 7 "9223372036854775808" = (7, some NumError.Range)
      ∧ InfoAge.Set 7 "99999999999999999999x" = (7, some NumError.Range)
      ∧ InfoAge.Set 7 "9999999999999999999x" = (7, some NumError.Syntax)
      ∧ InfoAge.Set 7 "9223372036854775807" = (-1000000, none)
      ∧ InfoAge.String 1500 = "1500"
      ∧ InfoAge.String (-1500) = "-1500"
      ∧ InfoAge.Set 7 (InfoAge.String 1500) = (wrap64 (1500 * 1000000), none)
      ∧ wrap64 (1500 * 1000000) = 1500000000
      ∧ InfoAge.Set 7 (InfoAge.String 0) = (0, none) :=
  ⟨by decide, by decide, by decide, by decide, by decide, by decide, by decide, by decide,
    infoage_set_string.2.2.2.1 7 1500 (by decide) (by decide), by decide, by decide⟩

end Fs
